import Mathlib

set_option maxHeartbeats 1000000

/-!
Verification of the alphasign protocol core against its specification: the
dots-picture device-file model (`alphasign/dots.py`), the allocation-directory
builder (`alphasign/interfaces/base.py`), and the adaptive USB transport
(`alphasign/interfaces/local.py`), embedded shallowly.  Strings are Lean
`String`s, machine integers are `Nat` (the Python values involved are
non-negative), and raised exceptions become `Except` errors.
-/

/-! ## Hexadecimal formatting (Python `%X` / `%0NX`), from `dots.py` -/

/-- One uppercase hexadecimal digit, as produced by Python `%X` formatting:
digits `0`-`9` then letters `A`-`F`. -/
def hexDigitChar (d : Nat) : Char :=
  if d < 10 then Char.ofNat (48 + d) else Char.ofNat (55 + d)

/-- Structural worker for `toHexCore`: the fuel only bounds the recursion
depth (one unit per hex digit) so that the definition reduces in the
kernel; `toHexCore` supplies ample fuel. -/
def toHexAux : Nat → Nat → List Char
  | 0, n => [hexDigitChar n]
  | fuel + 1, n =>
    if n < 16 then [hexDigitChar n]
    else toHexAux fuel (n / 16) ++ [hexDigitChar (n % 16)]

/-- The uppercase hexadecimal digits of `n`, most significant first: the
value of Python `"%X" % n` for `n ≥ 0` (so `0` renders as `"0"`). -/
def toHexCore (n : Nat) : List Char :=
  toHexAux n n

/-- Python `("%0" + str(w) + "X") % n`: uppercase hexadecimal, left-padded
with `0` to at least `w` digits.  This is the formatting used by
`DotsPicture._format_dimensions` and by the text/string size fields of
`BaseInterface.allocate`. -/
def pyHexFormat (w n : Nat) : String :=
  ⟨List.replicate (w - (toHexCore n).length) '0' ++ toHexCore n⟩

/-- Numeric value of one hexadecimal character (uppercase letters), `none`
for a non-hex character. -/
def hexCharVal (c : Char) : Option Nat :=
  if 48 ≤ c.toNat ∧ c.toNat ≤ 57 then some (c.toNat - 48)
  else if 65 ≤ c.toNat ∧ c.toNat ≤ 70 then some (c.toNat - 55)
  else none

/-- Left-to-right accumulator parse of a hexadecimal digit string. -/
def fromHexAux (acc : Nat) : List Char → Option Nat
  | [] => some acc
  | c :: cs =>
    match hexCharVal c with
    | some d => fromHexAux (acc * 16 + d) cs
    | none => none

/-- Parse an uppercase-hexadecimal string to its value. -/
def fromHex (cs : List Char) : Option Nat :=
  fromHexAux 0 cs

/-! ## Protocol constants

`constants.py` is not part of the source snapshot; only its names are used
by the files under verification.  The spec pins down what matters: the
command-type tags are fixed, pairwise distinct single characters, the row
terminator is a single control character (the source comments call it CR),
and the lock field is a fixed flag per kind. -/

/-- Modelled from the spec: `constants.CR`, the single control character
terminating each pixel row (`constants.py` absent from the snapshot). -/
def CR : String := "\x0D"

/-- Modelled from the spec: `constants.WRITE_SPECIAL`, the command code
introducing every special-function packet (`constants.py` absent). -/
def WRITE_SPECIAL : String := "E"

/-- Modelled from the spec: `constants.WRITE_SMALL_DOTS`, the single-character
command tag of a small-dots write (`constants.py` absent). -/
def WRITE_SMALL_DOTS : Char := 'I'

/-- Modelled from the spec: `constants.WRITE_LARGE_DOTS`, the single-character
command tag of a large-dots write (`constants.py` absent). -/
def WRITE_LARGE_DOTS : Char := 'M'

/-- Modelled from the spec: `constants.WRITE_RGB_DOTS`, the single-character
command tag of an RGB-dots write (`constants.py` absent). -/
def WRITE_RGB_DOTS : Char := 'K'

/-- Modelled from the spec: `constants.LOCKED`, the lock flag of a locked
allocation record (`constants.py` absent). -/
def LOCKED : String := "L"

/-- Modelled from the spec: `constants.UNLOCKED`, the lock flag of an
unlocked allocation record (`constants.py` absent). -/
def UNLOCKED : String := "U"

/-! ## The dots-picture model, from `alphasign/dots.py`

The Python classes `SmallDotsPicture`, `LargeDotsPicture` and
`RgbDotsPicture` all inherit `DotsPicture`; the inheritance is flattened
here into three records sharing the helper functions that embed the base
class's methods.  `__init__` validation (Python `raise ValueError`) becomes
a checked constructor returning `Except`. -/

/-- A validation failure raised by a dots-picture constructor
(Python `ValueError`). -/
inductive ValidationError
  | heightExceeded
  | widthExceeded
  | badLabel
  deriving DecidableEq, Repr

/-- A SMALL DOTS PICTURE file: the fields stored by
`SmallDotsPicture.__init__`. -/
structure SmallDotsPicture where
  label : String
  height : Nat
  width : Nat
  data : List String
  color_status : String
  deriving DecidableEq, Repr

/-- A LARGE DOTS PICTURE file: the fields stored by
`LargeDotsPicture.__init__`. -/
structure LargeDotsPicture where
  label : String
  height : Nat
  width : Nat
  data : List String
  color_status : String
  deriving DecidableEq, Repr

/-- An RGB DOTS PICTURE file: the fields stored by
`RgbDotsPicture.__init__` (which always stores color status `8000`). -/
structure RgbDotsPicture where
  label : String
  height : Nat
  width : Nat
  data : List String
  color_status : String
  deriving DecidableEq, Repr

/-- `SmallDotsPicture.__init__`: checks, in source order, height ≤ 31,
width ≤ 255, and label length = 1, then stores the fields unchanged. -/
def SmallDotsPicture.init (label : String) (height width : Nat)
    (data : List String) (color_status : String) :
    Except ValidationError SmallDotsPicture :=
  if height > 31 then .error .heightExceeded
  else if width > 255 then .error .widthExceeded
  else if label.length ≠ 1 then .error .badLabel
  else .ok ⟨label, height, width, data, color_status⟩

/-- `LargeDotsPicture.__init__`: checks, in source order, height ≤ 65535,
width ≤ 65535, and label length = 1 ("Enforcing single char based on E$
allocation spec"), then stores the fields unchanged. -/
def LargeDotsPicture.init (label : String) (height width : Nat)
    (data : List String) (color_status : String) :
    Except ValidationError LargeDotsPicture :=
  if height > 65535 then .error .heightExceeded
  else if width > 65535 then .error .widthExceeded
  else if label.length ≠ 1 then .error .badLabel
  else .ok ⟨label, height, width, data, color_status⟩

/-- `RgbDotsPicture.__init__`: checks height ≤ 65535, width ≤ 65535,
label length = 1; takes no color-status argument and always stores
`"8000"`. -/
def RgbDotsPicture.init (label : String) (height width : Nat)
    (data : List String) :
    Except ValidationError RgbDotsPicture :=
  if height > 65535 then .error .heightExceeded
  else if width > 65535 then .error .widthExceeded
  else if label.length ≠ 1 then .error .badLabel
  else .ok ⟨label, height, width, data, "8000"⟩

/-- `self.size = (height << 16) | width`, set by `DotsPicture.__init__`
and re-set identically by every subclass constructor.  It is a plain
integer, not a hex string. -/
def dotsSize (height width : Nat) : Nat :=
  (height <<< 16) ||| width

/-- `SmallDotsPicture.size`. -/
def SmallDotsPicture.size (p : SmallDotsPicture) : Nat :=
  dotsSize p.height p.width

/-- `LargeDotsPicture.size`. -/
def LargeDotsPicture.size (p : LargeDotsPicture) : Nat :=
  dotsSize p.height p.width

/-- `RgbDotsPicture.size`. -/
def RgbDotsPicture.size (p : RgbDotsPicture) : Nat :=
  dotsSize p.height p.width

/-- `DotsPicture._format_dimensions(num_bytes)`: height and width each as
`%0NX`-formatted uppercase hexadecimal. -/
def formatDimensions (num_bytes height width : Nat) : String × String :=
  (pyHexFormat num_bytes height, pyHexFormat num_bytes width)

/-- `DotsPicture._format_data`: each pixel row followed by one CR, all
concatenated (`"".join([row + constants.CR for row in self.data])`),
embedded as direct recursion. -/
def formatData : List String → String
  | [] => ""
  | row :: rest => row ++ CR ++ formatData rest

/-- The height-field/width-field concatenation as it appears in every
variant's packet (height field immediately followed by width field). -/
def encodeDimensions (num_bytes height width : Nat) : String :=
  (formatDimensions num_bytes height width).1 ++
    (formatDimensions num_bytes height width).2

/-- Modelled from the spec: the inverse of the dimension-field encoding.
No decoder exists in the source; the spec defines it by the round-trip
`decode(encode(h, w)) = (h, w)` over a field of exactly `2 * N` hex
characters, first `N` the height, last `N` the width. -/
def decodeDimensions (num_bytes : Nat) (s : String) : Option (Nat × Nat) :=
  if s.data.length = 2 * num_bytes then
    match fromHex (s.data.take num_bytes), fromHex (s.data.drop num_bytes) with
    | some h, some w => some (h, w)
    | _, _ => none
  else none

/-- The command payload built by `SmallDotsPicture.__str__` before the
external `Packet` framing: tag, label, 2+2 hex dimension field, rows. -/
def SmallDotsPicture.packetData (p : SmallDotsPicture) : String :=
  String.singleton WRITE_SMALL_DOTS ++ p.label ++
    (formatDimensions 2 p.height p.width).1 ++
    (formatDimensions 2 p.height p.width).2 ++
    formatData p.data

/-- The command payload built by `LargeDotsPicture.__str__` before the
external `Packet` framing: tag, label, 4+4 hex dimension field, rows. -/
def LargeDotsPicture.packetData (p : LargeDotsPicture) : String :=
  String.singleton WRITE_LARGE_DOTS ++ p.label ++
    (formatDimensions 4 p.height p.width).1 ++
    (formatDimensions 4 p.height p.width).2 ++
    formatData p.data

/-- The command payload built by `RgbDotsPicture.__str__` before the
external `Packet` framing: tag, label, 4+4 hex dimension field, rows. -/
def RgbDotsPicture.packetData (p : RgbDotsPicture) : String :=
  String.singleton WRITE_RGB_DOTS ++ p.label ++
    (formatDimensions 4 p.height p.width).1 ++
    (formatDimensions 4 p.height p.width).2 ++
    formatData p.data

example : pyHexFormat 2 31 = "1F" := by decide
example : pyHexFormat 4 255 = "00FF" := by decide
example : encodeDimensions 2 1 2 = "0102" := by decide
example : decodeDimensions 2 "1FFF" = some (31, 255) := by decide

/-! ## The allocation-directory builder, from `interfaces/base.py`

`BaseInterface.allocate(files)` loops over the input objects, appending one
allocation record per recognized kind to `seq` (unknown kinds print a
warning and `continue`), then chooses the special-function character by
inspecting the loop variable *after* the loop — i.e. the last element — and
hands `WRITE_SPECIAL + special_function + seq` to `Packet`.  If the list is
empty the loop variable was never bound; if the last element was an
unrecognized kind `special_function` was never bound; either way Python
raises `NameError` before any packet is built or written. -/

/-- Modelled from the spec: `text.py` is absent from the snapshot.  A TEXT
file carries a label and the byte size used by the allocation builder
(class `Text`). -/
structure TextFile where
  label : String
  size : Nat
  deriving DecidableEq, Repr

/-- Modelled from the spec: `string.py` is absent from the snapshot.  A
STRING file carries a label and the byte size used by the allocation
builder (class `String`). -/
structure StringFile where
  label : String
  size : Nat
  deriving DecidableEq, Repr

/-- One element of the heterogeneous list handed to
`BaseInterface.allocate`; `unknown` stands for an object of any other
Python type (the `else` branch of the type dispatch). -/
inductive AllocFile
  | text (t : TextFile)
  | str (s : StringFile)
  | smallDots (p : SmallDotsPicture)
  | largeDots (p : LargeDotsPicture)
  | rgbDots (p : RgbDotsPicture)
  | unknown (typeName : String)
  deriving DecidableEq, Repr

/-- The unhandled Python exception escaping `BaseInterface.allocate`:
reading a local name that was never bound. -/
inductive AllocError
  | nameError
  deriving DecidableEq, Repr

/-- The allocation record one loop iteration appends to `seq`, or `none`
when the object's kind is unrecognized and the iteration `continue`s.
Layouts exactly as interpolated by the source: short records are
`label + file_type + lock + size + qqqq`; long records are
`label + lock + size + color_status + "0000"`.  For dots pictures
`size_hex` is the integer `obj.size`, which `"%s"` renders in decimal. -/
def allocRecord : AllocFile → Option String
  | .text t => some (t.label ++ "A" ++ UNLOCKED ++ pyHexFormat 4 t.size ++ "FFFF")
  | .str s => some (s.label ++ "B" ++ LOCKED ++ pyHexFormat 4 s.size ++ "0000")
  | .smallDots p =>
    some (p.label ++ "D" ++ UNLOCKED ++ toString p.size ++ p.color_status)
  | .largeDots p =>
    some (p.label ++ UNLOCKED ++ toString p.size ++ p.color_status ++ "0000")
  | .rgbDots p =>
    some (p.label ++ UNLOCKED ++ toString p.size ++ p.color_status ++ "0000")
  | .unknown _ => none

/-- The special-function character the post-loop `isinstance` chain picks
from a given object, `none` when neither branch assigns it. -/
def specialFunctionChar : AllocFile → Option Char
  | .text _ => some '$'
  | .str _ => some '$'
  | .smallDots _ => some '$'
  | .largeDots _ => some '8'
  | .rgbDots _ => some '8'
  | .unknown _ => none

/-- The `for obj in files` loop of `allocate`: threads the accumulated
`seq` and the current value of the loop variable `obj` (if any). -/
def allocLoop (seq : String) (last : Option AllocFile) :
    List AllocFile → String × Option AllocFile
  | [] => (seq, last)
  | f :: fs => allocLoop (seq ++ (allocRecord f).getD "") (some f) fs

/-- `BaseInterface.allocate(files)`: the contents string handed to `Packet`
on success, or the unhandled `NameError` when `obj` (empty input) or
`special_function` (last object unrecognized) was never bound.  An error
means no packet is built and nothing is written to the device. -/
def allocate (files : List AllocFile) : Except AllocError String :=
  match allocLoop "" none files with
  | (_, none) => .error .nameError
  | (seq, some obj) =>
    match specialFunctionChar obj with
    | none => .error .nameError
    | some sf => .ok (WRITE_SPECIAL ++ String.singleton sf ++ seq)

/-- The concatenation of the records of a file list, unknown kinds
contributing nothing: what `seq` holds after the loop. -/
def allocSeq : List AllocFile → String
  | [] => ""
  | f :: fs => (allocRecord f).getD "" ++ allocSeq fs

/-! ## The adaptive USB transport, from `interfaces/local.py`

`USB.write(packet)` inspects the command-code character of the framed
packet (`packet.py` is absent from the snapshot; per the spec the tag is
recovered from the frame at a fixed protocol offset, so the tag is a
parameter here).  Small-dots packets are sent as bytes `[0, 16)`, a fixed
delay, then bytes `[16, end)`.  Large/RGB-dots packets are sent in a loop:
each iteration writes the next `max_packet_size` bytes, sleeps, and drops
from the front of the remainder however many bytes the device call
reported written (`remaining = remaining[partial:]`).  Every other command
is one single write.  In all cases one zero-length write finalizes the
transfer.  The device's reported byte counts are external input, supplied
as the `oracle` list (one entry per chunk-loop iteration); `none` means
the oracle was exhausted while data remained, i.e. the Python loop would
still be running. -/

/-- One observable action of `USB.write` on the underlying device handle:
a data write of the given bytes, or a fixed-duration sleep. -/
inductive UsbEvent
  | write (data : List Nat)
  | sleep
  deriving DecidableEq, Repr

/-- The large/RGB-dots chunk loop: one oracle entry is consumed per
iteration as the byte count the device reported; the requested chunk is
`remaining[:mps]` and the remainder shrinks by the reported count. -/
def chunkWrites (mps : Nat) (oracle remaining : List Nat) :
    Option (List (List Nat)) :=
  match remaining with
  | [] => some []
  | _ :: _ =>
    match oracle with
    | [] => none
    | r :: rest =>
      (chunkWrites mps rest (remaining.drop r)).map
        (fun ws => remaining.take mps :: ws)

/-- The chunks a run of the loop requests when the device accepts every
chunk in full: `remaining[:mps]`, then the chunks of `remaining[mps:]`.
The structural fuel is one unit per chunk; `chunksOf` supplies ample
fuel. -/
def chunksOfAux : Nat → Nat → List Nat → List (List Nat)
  | 0, _, _ => []
  | _, _, [] => []
  | fuel + 1, mps, b :: bs =>
    (b :: bs).take mps :: chunksOfAux fuel mps ((b :: bs).drop mps)

/-- The full-write chunk decomposition of a payload. -/
def chunksOf (mps : Nat) (bytes : List Nat) : List (List Nat) :=
  chunksOfAux bytes.length mps bytes

/-- The oracle describing a device that accepts every requested chunk in
full: the chunk lengths themselves. -/
def fullOracle (mps : Nat) (bytes : List Nat) : List Nat :=
  (chunksOf mps bytes).map List.length

/-- `USB.write`: the sequence of events issued on the device handle for a
framed payload with the given command-code character, packet bytes,
endpoint `wMaxPacketSize`, and device-report oracle. -/
def usbWrite (command_code : Char) (packet_bytes : List Nat)
    (max_packet_size : Nat) (oracle : List Nat) : Option (List UsbEvent) :=
  if command_code = WRITE_SMALL_DOTS then
    some [.write (packet_bytes.take 16), .sleep,
          .write (packet_bytes.drop 16), .write []]
  else if command_code = WRITE_LARGE_DOTS ∨ command_code = WRITE_RGB_DOTS then
    (chunkWrites max_packet_size oracle packet_bytes).map
      (fun ws => ws.flatMap (fun c => [.write c, .sleep]) ++ [.write []])
  else
    some [.write packet_bytes, .write []]

/-- The data writes of an event trace: every write except the final
zero-length end-of-transfer write. -/
def dataWrites (evs : List UsbEvent) : List (List Nat) :=
  evs.dropLast.filterMap (fun e =>
    match e with
    | .write d => some d
    | .sleep => none)

/-! ## Correctness of the hexadecimal codec -/

theorem toHexAux_lt (f n : Nat) (h : n < 16) : toHexAux f n = [hexDigitChar n] := by
  cases f with
  | zero => rfl
  | succ f => simp [toHexAux, h]

theorem toHexAux_congr (n : Nat) :
    ∀ f g, n ≤ f → n ≤ g → toHexAux f n = toHexAux g n := by
  induction n using Nat.strong_induction_on with
  | _ n ih =>
    intro f g hf hg
    by_cases h16 : n < 16
    · rw [toHexAux_lt f n h16, toHexAux_lt g n h16]
    · obtain ⟨f', rfl⟩ : ∃ f', f = f' + 1 := ⟨f - 1, by omega⟩
      obtain ⟨g', rfl⟩ : ∃ g', g = g' + 1 := ⟨g - 1, by omega⟩
      have hdiv : n / 16 < n := Nat.div_lt_self (by omega) (by omega)
      simp only [toHexAux, if_neg h16]
      rw [ih (n / 16) hdiv f' (n / 16) (by omega) le_rfl,
        ih (n / 16) hdiv g' (n / 16) (by omega) le_rfl]

theorem toHexCore_lt (n : Nat) (h : n < 16) : toHexCore n = [hexDigitChar n] :=
  toHexAux_lt n n h

theorem toHexCore_ge (n : Nat) (h : 16 ≤ n) :
    toHexCore n = toHexCore (n / 16) ++ [hexDigitChar (n % 16)] := by
  obtain ⟨m, rfl⟩ : ∃ m, n = m + 1 := ⟨n - 1, by omega⟩
  have hdiv : (m + 1) / 16 < m + 1 := Nat.div_lt_self (by omega) (by omega)
  show toHexAux (m + 1) (m + 1) = _
  simp only [toHexAux, if_neg (show ¬ m + 1 < 16 by omega)]
  rw [toHexAux_congr ((m + 1) / 16) m ((m + 1) / 16) (by omega) le_rfl]
  rfl

theorem toHexCore_ne_nil (n : Nat) : toHexCore n ≠ [] := by
  by_cases h : n < 16
  · rw [toHexCore_lt n h]; simp
  · rw [toHexCore_ge n (by omega)]; simp

theorem hexCharVal_digit : ∀ d, d < 16 → hexCharVal (hexDigitChar d) = some d := by
  decide

theorem fromHexAux_append (l1 l2 : List Char) :
    ∀ acc, fromHexAux acc (l1 ++ l2) =
      (fromHexAux acc l1).bind (fun v => fromHexAux v l2) := by
  induction l1 with
  | nil => intro acc; simp [fromHexAux]
  | cons c cs ih =>
    intro acc
    simp only [List.cons_append, fromHexAux]
    cases h : hexCharVal c with
    | none => simp [h]
    | some d => simp [h, ih]

theorem fromHexAux_toHexCore (n : Nat) :
    ∀ acc, fromHexAux acc (toHexCore n) =
      some (acc * 16 ^ (toHexCore n).length + n) := by
  induction n using Nat.strong_induction_on with
  | _ n ih =>
    intro acc
    by_cases h16 : n < 16
    · rw [toHexCore_lt n h16]
      simp [fromHexAux, hexCharVal_digit n h16]
    · have hdiv : n / 16 < n := Nat.div_lt_self (by omega) (by omega)
      rw [toHexCore_ge n (by omega), fromHexAux_append, ih (n / 16) hdiv acc]
      simp only [Option.some_bind, fromHexAux,
        hexCharVal_digit (n % 16) (Nat.mod_lt n (by omega)),
        List.length_append, List.length_cons, List.length_nil]
      congr 1
      have h2 : n / 16 * 16 + n % 16 = n := by omega
      have h3 : (toHexCore (n / 16)).length + (0 + 1) =
          (toHexCore (n / 16)).length + 1 := by omega
      rw [h3, pow_succ]
      calc (acc * 16 ^ (toHexCore (n / 16)).length + n / 16) * 16 + n % 16
          = acc * (16 ^ (toHexCore (n / 16)).length * 16) +
              (n / 16 * 16 + n % 16) := by ring
        _ = acc * (16 ^ (toHexCore (n / 16)).length * 16) + n := by rw [h2]

theorem toHexCore_length_le (k : Nat) :
    ∀ n, n < 16 ^ k → 1 ≤ k → (toHexCore n).length ≤ k := by
  induction k with
  | zero => intro n _ hk; omega
  | succ k ih =>
    intro n hn _
    by_cases h16 : n < 16
    · rw [toHexCore_lt n h16]; simp
    · rw [toHexCore_ge n (by omega)]
      have hk1 : 1 ≤ k := by
        rcases Nat.eq_zero_or_pos k with hk0 | hk0
        · subst hk0; rw [pow_one] at hn; exact absurd hn h16
        · exact hk0
      have hdivlt : n / 16 < 16 ^ k := by
        rw [Nat.div_lt_iff_lt_mul (by omega : 0 < 16)]
        calc n < 16 ^ (k + 1) := hn
          _ = 16 ^ k * 16 := by rw [pow_succ]
      have := ih (n / 16) hdivlt hk1
      simp only [List.length_append, List.length_cons, List.length_nil]
      omega

theorem fromHexAux_replicate_zero (k : Nat) :
    ∀ acc l, fromHexAux acc (List.replicate k '0' ++ l) =
      fromHexAux (acc * 16 ^ k) l := by
  induction k with
  | zero => intro acc l; simp
  | succ k ih =>
    intro acc l
    have hz : hexCharVal '0' = some 0 := by decide
    show fromHexAux acc ('0' :: (List.replicate k '0' ++ l)) = _
    simp only [fromHexAux, hz, ih]
    congr 1
    rw [pow_succ]
    ring

theorem pyHexFormat_length (w n : Nat) (hw : 1 ≤ w) (hn : n < 16 ^ w) :
    (pyHexFormat w n).data.length = w := by
  have hle := toHexCore_length_le w n hn hw
  simp [pyHexFormat, List.length_append, List.length_replicate]
  omega

theorem fromHex_pyHexFormat (w n : Nat) :
    fromHex (pyHexFormat w n).data = some n := by
  show fromHexAux 0 (List.replicate (w - (toHexCore n).length) '0' ++ toHexCore n)
    = some n
  rw [fromHexAux_replicate_zero, Nat.zero_mul, fromHexAux_toHexCore, Nat.zero_mul,
    Nat.zero_add]

theorem encodeDimensions_data (N h w : Nat) :
    (encodeDimensions N h w).data =
      (pyHexFormat N h).data ++ (pyHexFormat N w).data := by
  show (pyHexFormat N h ++ pyHexFormat N w).data = _
  exact String.data_append _ _

theorem encodeDecodeDimensions (N h w : Nat) (hN : 1 ≤ N)
    (hh : h < 16 ^ N) (hw : w < 16 ^ N) :
    (encodeDimensions N h w).data.length = 2 * N ∧
    decodeDimensions N (encodeDimensions N h w) = some (h, w) := by
  have hlh := pyHexFormat_length N h hN hh
  have hlw := pyHexFormat_length N w hN hw
  have hlen : (encodeDimensions N h w).data.length = 2 * N := by
    rw [encodeDimensions_data, List.length_append, hlh, hlw]; omega
  refine ⟨hlen, ?_⟩
  unfold decodeDimensions
  rw [if_pos hlen, encodeDimensions_data]
  have ht := List.take_left (pyHexFormat N h).data (pyHexFormat N w).data
  have hd := List.drop_left (pyHexFormat N h).data (pyHexFormat N w).data
  rw [hlh] at ht hd
  rw [ht, hd, fromHex_pyHexFormat, fromHex_pyHexFormat]

/-- C1: for every variant and every valid (height, width) pair within that
variant's bounds, `_format_dimensions` formats height and width each as
uppercase hexadecimal zero-padded to N digits (N = 2 for SmallDots, N = 4
for LargeDots/RgbDots) and the packet concatenates height-field then
width-field with no separator, so the encoded field is exactly 2×N hex
characters and decoding it recovers (height, width) exactly. -/
theorem c1_dimension_field_roundtrip (h w : Nat) :
    (h ≤ 31 → w ≤ 255 →
      (encodeDimensions 2 h w).data.length = 4 ∧
      decodeDimensions 2 (encodeDimensions 2 h w) = some (h, w)) ∧
    (h ≤ 65535 → w ≤ 65535 →
      (encodeDimensions 4 h w).data.length = 8 ∧
      decodeDimensions 4 (encodeDimensions 4 h w) = some (h, w)) := by
  have e2 : (16 : Nat) ^ 2 = 256 := by norm_num
  have e4 : (16 : Nat) ^ 4 = 65536 := by norm_num
  constructor
  · intro hh hw
    exact encodeDecodeDimensions 2 h w (by omega)
      (by rw [e2]; omega) (by rw [e2]; omega)
  · intro hh hw
    exact encodeDecodeDimensions 4 h w (by omega)
      (by rw [e4]; omega) (by rw [e4]; omega)

/-- Witness for C1 at the extreme in-bounds dimensions of each variant. -/
theorem c1_dimension_field_roundtrip_witness :
    ((encodeDimensions 2 31 255).data.length = 4 ∧
      decodeDimensions 2 (encodeDimensions 2 31 255) = some (31, 255)) ∧
    ((encodeDimensions 4 65535 65535).data.length = 8 ∧
      decodeDimensions 4 (encodeDimensions 4 65535 65535) =
        some (65535, 65535)) :=
  ⟨(c1_dimension_field_roundtrip 31 255).1 (by decide) (by decide),
   (c1_dimension_field_roundtrip 65535 65535).2 (by decide) (by decide)⟩

/-! ## String append helpers -/

theorem strAppend_empty (s : String) : s ++ "" = s := by
  apply String.ext
  rw [String.data_append]
  exact List.append_nil _

theorem strEmpty_append (s : String) : "" ++ s = s := by
  apply String.ext
  rw [String.data_append]
  rfl

theorem strAppend_assoc (a b c : String) : a ++ b ++ c = a ++ (b ++ c) := by
  apply String.ext
  rw [String.data_append, String.data_append, String.data_append,
    String.data_append, List.append_assoc]

/-! ## Behaviour of the allocation builder -/

theorem getLast?_cons_getLastD (a : α) (l : List α) :
    (a :: l).getLast? = some (l.getLastD a) := by
  induction l generalizing a with
  | nil => rfl
  | cons b bs ih => rw [List.getLast?_cons_cons, List.getLastD_cons]; exact ih b

theorem allocSeq_cons (f : AllocFile) (fs : List AllocFile) :
    allocSeq (f :: fs) = (allocRecord f).getD "" ++ allocSeq fs := rfl

theorem allocLoop_some (fs : List AllocFile) :
    ∀ (seq : String) (f : AllocFile),
      allocLoop seq (some f) fs =
        (seq ++ allocSeq fs, some (fs.getLastD f)) := by
  induction fs with
  | nil =>
    intro seq f
    show (seq, some f) = (seq ++ "", some f)
    rw [strAppend_empty]
  | cons g gs ih =>
    intro seq f
    show allocLoop (seq ++ (allocRecord g).getD "") (some g) gs = _
    rw [ih, List.getLastD_cons, allocSeq_cons, strAppend_assoc]

theorem allocSeq_append (l1 l2 : List AllocFile) :
    allocSeq (l1 ++ l2) = allocSeq l1 ++ allocSeq l2 := by
  induction l1 with
  | nil => rw [List.nil_append]; exact (strEmpty_append _).symm
  | cons f fs ih =>
    show (allocRecord f).getD "" ++ allocSeq (fs ++ l2) = _
    rw [ih, ← strAppend_assoc]
    rfl

/-- What one-or-more-element calls of `BaseInterface.allocate` compute:
the special-function character is chosen by the kind of the *last*
element alone, and the record sequence skips unknown kinds. -/
theorem allocate_cons (f : AllocFile) (fs : List AllocFile) :
    allocate (f :: fs) =
      match specialFunctionChar (fs.getLastD f) with
      | none => Except.error AllocError.nameError
      | some sf =>
        Except.ok (WRITE_SPECIAL ++ String.singleton sf ++ allocSeq (f :: fs)) := by
  have h1 : allocLoop "" none (f :: fs) =
      ("" ++ (allocRecord f).getD "" ++ allocSeq fs, some (fs.getLastD f)) := by
    show allocLoop ("" ++ (allocRecord f).getD "") (some f) fs = _
    rw [allocLoop_some]
  unfold allocate
  rw [h1]
  show (match specialFunctionChar (fs.getLastD f) with
    | none => Except.error AllocError.nameError
    | some sf => Except.ok (WRITE_SPECIAL ++ String.singleton sf ++
        ("" ++ (allocRecord f).getD "" ++ allocSeq fs))) = _
  rw [strEmpty_append, allocSeq_cons]

/-- `BaseInterface.allocate` as a function of the whole input list. -/
theorem allocate_spec (files : List AllocFile) :
    allocate files =
      match files.getLast? with
      | none => Except.error AllocError.nameError
      | some obj =>
        match specialFunctionChar obj with
        | none => Except.error AllocError.nameError
        | some sf =>
          Except.ok (WRITE_SPECIAL ++ String.singleton sf ++ allocSeq files) := by
  cases files with
  | nil => rfl
  | cons f fs => rw [allocate_cons, getLast?_cons_getLastD]

/-- C10: calling the allocation builder with an empty collection emits no
directory command and raises no `UnsupportedFileKind`: the special-function
selection reads the loop variable `obj` that was never bound, so the call
ends in an unhandled name-resolution error (`NameError`) before any packet
is built or written. -/
theorem c10_allocate_empty_name_error :
    allocate [] = Except.error AllocError.nameError := rfl

/-- C3 counterexample: a collection containing a long-layout object
(`LargeDotsPicture`) whose *last* element is a text file is addressed
under the legacy special-function character `$` (string position 1), not
the extended character `8` the claim requires. -/
theorem c3_counterexample_large_then_text :
    allocate [AllocFile.largeDots ⟨"L", 1, 1, [], "1000"⟩,
        AllocFile.text ⟨"A", 100⟩] =
      Except.ok "E$LU6553710000000AAU0064FFFF" ∧
    "E$LU6553710000000AAU0064FFFF".data[1]? = some '$' ∧ '$' ≠ '8' :=
  ⟨rfl, rfl, by decide⟩

/-- C3 amended: the special-function code of the emitted directory command
is a function of the kind of the *last* object of the collection (the loop
variable after the loop), not of the set of kinds present: `$` if the last
object is text/string/small-dots, `8` if it is large-dots/RGB-dots, and an
unhandled `NameError` if it is of unknown kind. -/
theorem c3_special_function_from_last (f : AllocFile) (fs : List AllocFile) :
    (∀ sf, specialFunctionChar (fs.getLastD f) = some sf →
      allocate (f :: fs) =
        Except.ok (WRITE_SPECIAL ++ String.singleton sf ++ allocSeq (f :: fs))) ∧
    (specialFunctionChar (fs.getLastD f) = none →
      allocate (f :: fs) = Except.error AllocError.nameError) := by
  constructor
  · intro sf hsf
    rw [allocate_cons, hsf]
  · intro hsf
    rw [allocate_cons, hsf]

/-- Witness for the amended C3: a one-text-file directory goes out under
the legacy `$` code. -/
theorem c3_special_function_from_last_witness :
    allocate [AllocFile.text ⟨"A", 100⟩] =
      Except.ok (WRITE_SPECIAL ++ String.singleton '$' ++
        allocSeq [AllocFile.text ⟨"A", 100⟩]) :=
  (c3_special_function_from_last (AllocFile.text ⟨"A", 100⟩) []).1 '$' rfl

/-- C7 counterexample: a collection containing an object of unrecognized
kind is *not* rejected: the unknown object contributes no record and the
directory is built from the remaining files without any error. -/
theorem c7_counterexample_unknown_skipped :
    allocRecord (AllocFile.unknown "Counter") = none ∧
    allocate [AllocFile.unknown "Counter", AllocFile.text ⟨"A", 100⟩] =
      Except.ok "E$AAU0064FFFF" :=
  ⟨rfl, rfl⟩

/-- C7 amended: the builder never raises an `UnsupportedFileKind`: an
object of unrecognized kind is silently skipped (after a printed warning)
and the directory is the one built from the remaining objects — except
that if the unknown object is last, the special-function selection reads
the never-bound `special_function` local and the call ends in an unhandled
`NameError`. -/
theorem c7_unknown_objects_skipped (pre post : List AllocFile) (nm : String) :
    (post ≠ [] →
      allocate (pre ++ AllocFile.unknown nm :: post) = allocate (pre ++ post)) ∧
    allocate (pre ++ [AllocFile.unknown nm]) = Except.error AllocError.nameError := by
  constructor
  · intro hpost
    have hseq : allocSeq (pre ++ AllocFile.unknown nm :: post) =
        allocSeq (pre ++ post) := by
      rw [allocSeq_append, allocSeq_append]
      show allocSeq pre ++ ((allocRecord (AllocFile.unknown nm)).getD "" ++
        allocSeq post) = _
      rw [show (allocRecord (AllocFile.unknown nm)).getD "" = "" from rfl,
        strEmpty_append]
    have hlast : (pre ++ AllocFile.unknown nm :: post).getLast? =
        (pre ++ post).getLast? := by
      rw [show pre ++ AllocFile.unknown nm :: post =
          (pre ++ [AllocFile.unknown nm]) ++ post by simp,
        List.getLast?_append_of_ne_nil _ hpost,
        List.getLast?_append_of_ne_nil _ hpost]
    rw [allocate_spec (pre ++ AllocFile.unknown nm :: post),
      allocate_spec (pre ++ post), hlast, hseq]
  · rw [allocate_spec (pre ++ [AllocFile.unknown nm]), List.getLast?_concat]
    rfl

/-- C2 (evidence of the code bug): the allocation record of a dots picture
renders `obj.size = (height << 16) | width` through `"%s"`, i.e. as a
*decimal* integer string, not as the hex dimension field the code's own
comments ("SIZE for DOTS is RRCC ... in hex") and the claim require: a
1×2 small-dots picture yields size field `"65538"` where the cached
dimension field is `"0102"`, and a 1×1 large-dots picture yields
`"65537"` where 8 hex digits would be `"00010001"`. -/
theorem c2_dots_size_field_is_decimal :
    allocate [AllocFile.smallDots ⟨"1", 1, 2, [], "1000"⟩] =
      Except.ok "E$1DU655381000" ∧
    SmallDotsPicture.size ⟨"1", 1, 2, [], "1000"⟩ = 65538 ∧
    encodeDimensions 2 1 2 = "0102" ∧
    allocate [AllocFile.largeDots ⟨"L", 1, 1, [], "1000"⟩] =
      Except.ok "E8LU6553710000000" ∧
    encodeDimensions 4 1 1 = "00010001" :=
  ⟨rfl, rfl, rfl, rfl, rfl⟩

example : allocate [] = .error .nameError := rfl
example :
    allocate [.text ⟨"A", 100⟩] =
      .ok ("E" ++ "$" ++ "AAU0064FFFF") := rfl
example :
    allocate [.largeDots ⟨"L", 1, 1, [], "1000"⟩, .text ⟨"A", 100⟩] =
      .ok ("E" ++ "$" ++ "LU6553710000000" ++ "AAU0064FFFF") := rfl
example :
    chunksOf 4 (List.replicate 10 0) =
      [List.replicate 4 0, List.replicate 4 0, List.replicate 2 0] := by decide

/-! ## Serialization layout (C4) and construction-time validation (C5, C6) -/

theorem formatData_append (l1 l2 : List String) :
    formatData (l1 ++ l2) = formatData l1 ++ formatData l2 := by
  induction l1 with
  | nil => exact (strEmpty_append _).symm
  | cons r rs ih =>
    show r ++ CR ++ formatData (rs ++ l2) = r ++ CR ++ formatData rs ++ formatData l2
    rw [ih, strAppend_assoc (r ++ CR) (formatData rs) (formatData l2)]

/-- C4: for every constructed dots-picture variant, the command payload
produced by `__str__` (before the external `Packet` framing) is exactly
the variant's type tag, then the label, then the dimension field (height
field immediately followed by width field), then each pixel row in order
with a single CR appended after every row — including the last row, as
the last two conjuncts show. -/
theorem c4_serialize_layout (ps : SmallDotsPicture) (pl : LargeDotsPicture)
    (pr : RgbDotsPicture) (rows : List String) (row : String) :
    ps.packetData = String.singleton WRITE_SMALL_DOTS ++ ps.label ++
      encodeDimensions 2 ps.height ps.width ++ formatData ps.data ∧
    pl.packetData = String.singleton WRITE_LARGE_DOTS ++ pl.label ++
      encodeDimensions 4 pl.height pl.width ++ formatData pl.data ∧
    pr.packetData = String.singleton WRITE_RGB_DOTS ++ pr.label ++
      encodeDimensions 4 pr.height pr.width ++ formatData pr.data ∧
    formatData [] = "" ∧
    formatData (rows ++ [row]) = formatData rows ++ row ++ CR := by
  refine ⟨?_, ?_, ?_, rfl, ?_⟩
  · show String.singleton WRITE_SMALL_DOTS ++ ps.label ++
      (formatDimensions 2 ps.height ps.width).1 ++
      (formatDimensions 2 ps.height ps.width).2 ++ formatData ps.data = _
    rw [encodeDimensions,
      strAppend_assoc (String.singleton WRITE_SMALL_DOTS ++ ps.label)
        (formatDimensions 2 ps.height ps.width).1
        (formatDimensions 2 ps.height ps.width).2]
  · show String.singleton WRITE_LARGE_DOTS ++ pl.label ++
      (formatDimensions 4 pl.height pl.width).1 ++
      (formatDimensions 4 pl.height pl.width).2 ++ formatData pl.data = _
    rw [encodeDimensions,
      strAppend_assoc (String.singleton WRITE_LARGE_DOTS ++ pl.label)
        (formatDimensions 4 pl.height pl.width).1
        (formatDimensions 4 pl.height pl.width).2]
  · show String.singleton WRITE_RGB_DOTS ++ pr.label ++
      (formatDimensions 4 pr.height pr.width).1 ++
      (formatDimensions 4 pr.height pr.width).2 ++ formatData pr.data = _
    rw [encodeDimensions,
      strAppend_assoc (String.singleton WRITE_RGB_DOTS ++ pr.label)
        (formatDimensions 4 pr.height pr.width).1
        (formatDimensions 4 pr.height pr.width).2]
  · rw [formatData_append]
    show formatData rows ++ (row ++ CR ++ "") = formatData rows ++ row ++ CR
    rw [strAppend_empty, ← strAppend_assoc]

/-- C5 counterexample: constructing a `LargeDotsPicture` with a 9-character
label (and otherwise valid arguments) does *not* succeed: the source
enforces a single-character label ("Enforcing single char based on E$
allocation spec"), so it fails with the label-length validation error. -/
theorem c5_counterexample_nine_char_label :
    LargeDotsPicture.init "ABCDEFGHI" 10 10 [] "1000" =
      Except.error ValidationError.badLabel := rfl

/-- C5 amended: label length is validated eagerly at construction, but
every variant — Small, Large and RGB alike — requires exactly a
1-character label: a SmallDots label of length ≠ 1 fails, an 8-character
LargeDots label fails, and a 9-character LargeDots label fails too;
construction succeeds (given in-bounds dimensions) exactly when the label
has length 1. -/
theorem c5_label_length_validation (label : String) (height width : Nat)
    (data : List String) (cs : String) :
    (height ≤ 31 → width ≤ 255 →
      ((∃ p, SmallDotsPicture.init label height width data cs = Except.ok p) ↔
        label.length = 1)) ∧
    (height ≤ 65535 → width ≤ 65535 →
      (((∃ p, LargeDotsPicture.init label height width data cs = Except.ok p) ↔
          label.length = 1) ∧
        ((∃ p, RgbDotsPicture.init label height width data = Except.ok p) ↔
          label.length = 1))) := by
  constructor
  · intro hh hw
    rw [SmallDotsPicture.init, if_neg (by omega : ¬ height > 31),
      if_neg (by omega : ¬ width > 255)]
    by_cases hl : label.length = 1
    · rw [if_neg (show ¬ label.length ≠ 1 from fun h => h hl)]
      simp [hl]
    · rw [if_pos hl]
      simp [hl]
  · intro hh hw
    constructor
    · rw [LargeDotsPicture.init, if_neg (by omega : ¬ height > 65535),
        if_neg (by omega : ¬ width > 65535)]
      by_cases hl : label.length = 1
      · rw [if_neg (show ¬ label.length ≠ 1 from fun h => h hl)]
        simp [hl]
      · rw [if_pos hl]
        simp [hl]
    · rw [RgbDotsPicture.init, if_neg (by omega : ¬ height > 65535),
        if_neg (by omega : ¬ width > 65535)]
      by_cases hl : label.length = 1
      · rw [if_neg (show ¬ label.length ≠ 1 from fun h => h hl)]
        simp [hl]
      · rw [if_pos hl]
        simp [hl]

/-- Witness for the amended C5: a 1-character LargeDots label succeeds
while 8- and 9-character labels fail. -/
theorem c5_label_length_validation_witness :
    (∃ p, LargeDotsPicture.init "B" 0 0 [] "1000" = Except.ok p) ∧
    ¬ (∃ p, LargeDotsPicture.init "ABCDEFGH" 0 0 [] "1000" = Except.ok p) ∧
    ¬ (∃ p, LargeDotsPicture.init "ABCDEFGHI" 0 0 [] "1000" = Except.ok p) := by
  refine ⟨?_, ?_, ?_⟩
  · exact ((c5_label_length_validation "B" 0 0 [] "1000").2
      (by decide) (by decide)).1.mpr (by decide)
  · intro h
    exact absurd (((c5_label_length_validation "ABCDEFGH" 0 0 [] "1000").2
      (by decide) (by decide)).1.mp h) (by decide)
  · intro h
    exact absurd (((c5_label_length_validation "ABCDEFGHI" 0 0 [] "1000").2
      (by decide) (by decide)).1.mp h) (by decide)

/-- C6 counterexample: constructing a `SmallDotsPicture` with a colorStatus
outside its allowed set (the docstring's `{"1000", "2000", "4000"}`)
*succeeds* — no constructor validates colorStatus. -/
theorem c6_counterexample_bad_color_accepted :
    SmallDotsPicture.init "1" 0 0 [] "ZZZZ" =
      Except.ok ⟨"1", 0, 0, [], "ZZZZ"⟩ ∧
    "ZZZZ" ∉ (["1000", "2000", "4000"] : List String) :=
  ⟨rfl, by decide⟩

/-- C6 amended: colorStatus is never validated, neither at construction
nor at serialize time: Small and Large constructors store any colorStatus
string unchanged, and the RGB constructor takes no colorStatus argument at
all and always stores `"8000"` (serialization is a total function of the
stored fields, so no check can occur there either). -/
theorem c6_color_status_not_validated (label : String) (height width : Nat)
    (data : List String) (cs : String) (hl : label.length = 1) :
    (height ≤ 31 → width ≤ 255 →
      SmallDotsPicture.init label height width data cs =
        Except.ok ⟨label, height, width, data, cs⟩) ∧
    (height ≤ 65535 → width ≤ 65535 →
      (LargeDotsPicture.init label height width data cs =
        Except.ok ⟨label, height, width, data, cs⟩ ∧
      RgbDotsPicture.init label height width data =
        Except.ok ⟨label, height, width, data, "8000"⟩)) := by
  constructor
  · intro hh hw
    rw [SmallDotsPicture.init, if_neg (by omega : ¬ height > 31),
      if_neg (by omega : ¬ width > 255),
      if_neg (show ¬ label.length ≠ 1 from fun h => h hl)]
  · intro hh hw
    constructor
    · rw [LargeDotsPicture.init, if_neg (by omega : ¬ height > 65535),
        if_neg (by omega : ¬ width > 65535),
        if_neg (show ¬ label.length ≠ 1 from fun h => h hl)]
    · rw [RgbDotsPicture.init, if_neg (by omega : ¬ height > 65535),
        if_neg (by omega : ¬ width > 65535),
        if_neg (show ¬ label.length ≠ 1 from fun h => h hl)]

/-- Witness for the amended C6: out-of-domain colorStatus strings are
accepted by the Small and Large constructors. -/
theorem c6_color_status_not_validated_witness :
    SmallDotsPicture.init "2" 0 0 [] "XXXX" =
      Except.ok ⟨"2", 0, 0, [], "XXXX"⟩ ∧
    LargeDotsPicture.init "L" 2 2 [] "9999" =
      Except.ok ⟨"L", 2, 2, [], "9999"⟩ :=
  ⟨(c6_color_status_not_validated "2" 0 0 [] "XXXX" (by decide)).1
      (by decide) (by decide),
    ((c6_color_status_not_validated "L" 2 2 [] "9999" (by decide)).2
      (by decide) (by decide)).1⟩

/-! ## Adaptive transport (C8, C9) -/

/-- C8: a framed payload whose command tag is the small-dots write command
is sent as exactly two underlying data writes — bytes [0, 16) then bytes
[16, end) — with the fixed delay between them (then the zero-length
end-of-transfer write); the split offset 16 is a constant independent of
the payload length, and a 40-byte payload yields writes of 16 and 24
bytes. -/
theorem c8_small_dots_split (packet_bytes : List Nat) (mps : Nat)
    (oracle : List Nat) :
    usbWrite WRITE_SMALL_DOTS packet_bytes mps oracle =
      some [UsbEvent.write (packet_bytes.take 16), UsbEvent.sleep,
        UsbEvent.write (packet_bytes.drop 16), UsbEvent.write []] ∧
    dataWrites [UsbEvent.write (packet_bytes.take 16), UsbEvent.sleep,
        UsbEvent.write (packet_bytes.drop 16), UsbEvent.write []] =
      [packet_bytes.take 16, packet_bytes.drop 16] ∧
    (packet_bytes.length = 40 →
      (packet_bytes.take 16).length = 16 ∧
      (packet_bytes.drop 16).length = 24) := by
  refine ⟨rfl, rfl, ?_⟩
  intro h
  constructor
  · simp [List.length_take, h]
  · simp [List.length_drop, h]

/-- Witness for C8 on a concrete 40-byte payload. -/
theorem c8_small_dots_split_witness :
    ((List.replicate 40 (0 : Nat)).take 16).length = 16 ∧
    ((List.replicate 40 (0 : Nat)).drop 16).length = 24 :=
  (c8_small_dots_split (List.replicate 40 0) 64 []).2.2 (by decide)

theorem chunksOfAux_congr (mps : Nat) (hm : 0 < mps) :
    ∀ (n : Nat) (bytes : List Nat), bytes.length = n →
      ∀ f g, bytes.length ≤ f → bytes.length ≤ g →
        chunksOfAux f mps bytes = chunksOfAux g mps bytes := by
  intro n
  induction n using Nat.strong_induction_on with
  | _ n ih =>
    intro bytes hlen f g hf hg
    cases bytes with
    | nil =>
      cases f with
      | zero => cases g with
        | zero => rfl
        | succ g => rfl
      | succ f => cases g with
        | zero => rfl
        | succ g => rfl
    | cons b bs =>
      obtain ⟨f', rfl⟩ : ∃ f', f = f' + 1 := ⟨f - 1, by simp at hf; omega⟩
      obtain ⟨g', rfl⟩ : ∃ g', g = g' + 1 := ⟨g - 1, by simp at hg; omega⟩
      show (b :: bs).take mps :: chunksOfAux f' mps ((b :: bs).drop mps) =
        (b :: bs).take mps :: chunksOfAux g' mps ((b :: bs).drop mps)
      have hdlen : ((b :: bs).drop mps).length = (b :: bs).length - mps := by
        simp [List.length_drop]
      have hlt : ((b :: bs).drop mps).length < n := by
        simp at hlen
        simp [hdlen]
        omega
      simp only [List.length_cons] at hf hg
      rw [ih _ hlt ((b :: bs).drop mps) rfl f' g'
        (by rw [hdlen]; simp; omega) (by rw [hdlen]; simp; omega)]

theorem chunksOf_cons (mps : Nat) (hm : 0 < mps) (b : Nat) (bs : List Nat) :
    chunksOf mps (b :: bs) =
      (b :: bs).take mps :: chunksOf mps ((b :: bs).drop mps) := by
  show chunksOfAux (b :: bs).length mps (b :: bs) = _
  show (b :: bs).take mps :: chunksOfAux bs.length mps ((b :: bs).drop mps) = _
  rw [chunksOfAux_congr mps hm ((b :: bs).drop mps).length ((b :: bs).drop mps)
    rfl bs.length ((b :: bs).drop mps).length (by simp [List.length_drop]; omega)
    le_rfl]
  rfl

theorem chunksOf_length (mps : Nat) (hm : 0 < mps) :
    ∀ (n : Nat) (bytes : List Nat), bytes.length = n →
      (chunksOf mps bytes).length = (bytes.length + mps - 1) / mps := by
  intro n
  induction n using Nat.strong_induction_on with
  | _ n ih =>
    intro bytes hlen
    cases bytes with
    | nil =>
      have h0 : (chunksOf mps ([] : List Nat)).length = 0 := rfl
      rw [h0, List.length_nil, Nat.zero_add]
      exact (Nat.div_eq_of_lt (by omega)).symm
    | cons b bs =>
      have hdlen : ((b :: bs).drop mps).length = (b :: bs).length - mps := by
        simp [List.length_drop]
      have hlt : ((b :: bs).drop mps).length < n := by
        rw [hdlen]
        simp only [List.length_cons] at hlen ⊢
        omega
      rw [chunksOf_cons mps hm, List.length_cons, ih _ hlt _ rfl, hdlen]
      have hL1 : 1 ≤ (b :: bs).length := by simp
      rcases le_or_lt (b :: bs).length mps with hc | hc
      · have h1 : (b :: bs).length - mps = 0 := by omega
        rw [h1, Nat.zero_add, Nat.div_eq_of_lt (by omega), Nat.zero_add]
        symm
        exact Nat.div_eq_of_lt_le (by omega) (by omega)
      · have h2 : (b :: bs).length - mps + mps - 1 = (b :: bs).length - 1 := by
          omega
        have h3 : (b :: bs).length + mps - 1 = ((b :: bs).length - 1) + mps := by
          omega
        rw [h2, h3, Nat.add_div_right _ hm]

theorem chunksOf_sum (mps : Nat) (hm : 0 < mps) :
    ∀ (n : Nat) (bytes : List Nat), bytes.length = n →
      ((chunksOf mps bytes).map List.length).sum = bytes.length := by
  intro n
  induction n using Nat.strong_induction_on with
  | _ n ih =>
    intro bytes hlen
    cases bytes with
    | nil => rfl
    | cons b bs =>
      have hdlen : ((b :: bs).drop mps).length = (b :: bs).length - mps := by
        simp [List.length_drop]
      have hlt : ((b :: bs).drop mps).length < n := by
        rw [hdlen]
        simp only [List.length_cons] at hlen ⊢
        omega
      rw [chunksOf_cons mps hm, List.map_cons, List.sum_cons, ih _ hlt _ rfl,
        hdlen, List.length_take]
      simp only [List.length_cons]
      omega

theorem chunksOf_chunk_le (mps : Nat) (hm : 0 < mps) :
    ∀ (n : Nat) (bytes : List Nat), bytes.length = n →
      ∀ c ∈ chunksOf mps bytes, c.length ≤ mps := by
  intro n
  induction n using Nat.strong_induction_on with
  | _ n ih =>
    intro bytes hlen c hc
    cases bytes with
    | nil => simp [chunksOf, chunksOfAux] at hc
    | cons b bs =>
      rw [chunksOf_cons mps hm] at hc
      have hdlen : ((b :: bs).drop mps).length = (b :: bs).length - mps := by
        simp [List.length_drop]
      have hlt : ((b :: bs).drop mps).length < n := by
        rw [hdlen]
        simp only [List.length_cons] at hlen ⊢
        omega
      rcases List.mem_cons.mp hc with h | h
      · subst h
        simp [List.length_take]
      · exact ih _ hlt _ rfl c h

theorem chunkWrites_chunk_le (mps : Nat) :
    ∀ (oracle bytes : List Nat) (ws : List (List Nat)),
      chunkWrites mps oracle bytes = some ws → ∀ c ∈ ws, c.length ≤ mps := by
  intro oracle
  induction oracle with
  | nil =>
    intro bytes ws h c hc
    cases bytes with
    | nil =>
      have : ws = [] := by
        have h0 : chunkWrites mps [] ([] : List Nat) = some [] := rfl
        rw [h0] at h
        exact (Option.some.injEq _ _ ▸ h).symm
      subst this
      simp at hc
    | cons b bs => simp [chunkWrites] at h
  | cons r rest ih =>
    intro bytes ws h c hc
    cases bytes with
    | nil =>
      have : ws = [] := by
        have h0 : chunkWrites mps (r :: rest) ([] : List Nat) = some [] := rfl
        rw [h0] at h
        exact (Option.some.injEq _ _ ▸ h).symm
      subst this
      simp at hc
    | cons b bs =>
      have hstep : chunkWrites mps (r :: rest) (b :: bs) =
          (chunkWrites mps rest ((b :: bs).drop r)).map
            (fun ws => (b :: bs).take mps :: ws) := rfl
      rw [hstep] at h
      cases hrec : chunkWrites mps rest ((b :: bs).drop r) with
      | none => rw [hrec] at h; simp at h
      | some ws' =>
        rw [hrec] at h
        simp at h
        subst h
        rcases List.mem_cons.mp hc with h1 | h2
        · subst h1
          simp [List.length_take]
        · exact ih _ _ hrec c h2

theorem chunkWrites_fullOracle (mps : Nat) (hm : 0 < mps) :
    ∀ (n : Nat) (bytes : List Nat), bytes.length = n →
      chunkWrites mps (fullOracle mps bytes) bytes =
        some (chunksOf mps bytes) := by
  intro n
  induction n using Nat.strong_induction_on with
  | _ n ih =>
    intro bytes hlen
    cases bytes with
    | nil => rfl
    | cons b bs =>
      have hcons := chunksOf_cons mps hm b bs
      have hdlen : ((b :: bs).drop mps).length = (b :: bs).length - mps := by
        simp [List.length_drop]
      have hlt : ((b :: bs).drop mps).length < n := by
        rw [hdlen]
        simp only [List.length_cons] at hlen ⊢
        omega
      have hfo : fullOracle mps (b :: bs) =
          ((b :: bs).take mps).length ::
            fullOracle mps ((b :: bs).drop mps) := by
        show (chunksOf mps (b :: bs)).map List.length = _
        rw [hcons, List.map_cons]
        rfl
      rw [hfo, hcons]
      show (chunkWrites mps (fullOracle mps ((b :: bs).drop mps))
          ((b :: bs).drop ((b :: bs).take mps).length)).map
          (fun ws => (b :: bs).take mps :: ws) = _
      have hdt : (b :: bs).drop ((b :: bs).take mps).length =
          (b :: bs).drop mps := by
        rcases le_or_lt (b :: bs).length mps with hc | hc
        · rw [List.length_take, Nat.min_eq_right hc, List.drop_length,
            List.drop_eq_nil_of_le hc]
        · rw [List.length_take, Nat.min_eq_left (le_of_lt hc)]
      rw [hdt, ih _ hlt _ rfl]
      rfl

/-- C9: a framed payload whose command tag is the large-dots or RGB-dots
write command is sent by the chunk loop: each underlying call writes the
next at-most-`max_packet_size` bytes with the fixed delay after it, the
unsent remainder shrinks by exactly the byte count the device call
reports (a short write only causes another iteration, never a failure),
and when the device accepts every requested chunk in full the loop
terminates with data writes that sum to the payload length in exactly
⌈length / max_packet_size⌉ calls (so 1000 bytes with
`max_packet_size = 64` take ⌈1000/64⌉ = 16 writes). -/
theorem c9_large_dots_chunk_loop (mps : Nat) (bytes oracle : List Nat)
    (ws : List (List Nat)) (r : Nat) (rest : List Nat) (hm : 0 < mps) :
    (chunkWrites mps oracle bytes = some ws → ∀ c ∈ ws, c.length ≤ mps) ∧
    (bytes ≠ [] → chunkWrites mps (r :: rest) bytes =
      (chunkWrites mps rest (bytes.drop r)).map
        (fun l => bytes.take mps :: l)) ∧
    chunkWrites mps (fullOracle mps bytes) bytes =
      some (chunksOf mps bytes) ∧
    (chunksOf mps bytes).length = (bytes.length + mps - 1) / mps ∧
    ((chunksOf mps bytes).map List.length).sum = bytes.length ∧
    usbWrite WRITE_LARGE_DOTS bytes mps oracle =
      (chunkWrites mps oracle bytes).map
        (fun l => l.flatMap (fun c => [UsbEvent.write c, UsbEvent.sleep]) ++
          [UsbEvent.write []]) ∧
    usbWrite WRITE_RGB_DOTS bytes mps oracle =
      (chunkWrites mps oracle bytes).map
        (fun l => l.flatMap (fun c => [UsbEvent.write c, UsbEvent.sleep]) ++
          [UsbEvent.write []]) := by
  refine ⟨fun h => chunkWrites_chunk_le mps oracle bytes ws h, ?_,
    chunkWrites_fullOracle mps hm bytes.length bytes rfl,
    chunksOf_length mps hm bytes.length bytes rfl,
    chunksOf_sum mps hm bytes.length bytes rfl, rfl, rfl⟩
  intro hne
  cases bytes with
  | nil => exact absurd rfl hne
  | cons b bs => rfl

/-- Witness for C9 on a 10-byte payload with `max_packet_size = 4`: the
full-write chunk loop completes in ⌈10/4⌉ = 3 writes summing to 10. -/
theorem c9_large_dots_chunk_loop_witness :
    chunkWrites 4 (fullOracle 4 (List.replicate 10 0))
        (List.replicate 10 0) =
      some (chunksOf 4 (List.replicate 10 0)) ∧
    (chunksOf 4 (List.replicate 10 (0 : Nat))).length = 3 ∧
    ((chunksOf 4 (List.replicate 10 (0 : Nat))).map List.length).sum = 10 := by
  have h := c9_large_dots_chunk_loop 4 (List.replicate 10 0) [] [] 2 []
    (by decide)
  refine ⟨h.2.2.1, ?_, ?_⟩
  · rw [h.2.2.2.1]
    decide
  · rw [h.2.2.2.2.1]
    decide

/-- Witness for the amended C7: skipping a mid-list unknown object, and
the `NameError` when the unknown object is last. -/
theorem c7_unknown_objects_skipped_witness :
    allocate [AllocFile.unknown "X", AllocFile.text ⟨"A", 100⟩] =
      allocate [AllocFile.text ⟨"A", 100⟩] ∧
    allocate [AllocFile.text ⟨"A", 100⟩, AllocFile.unknown "X"] =
      Except.error AllocError.nameError :=
  ⟨(c7_unknown_objects_skipped [] [AllocFile.text ⟨"A", 100⟩] "X").1
      (by simp),
    (c7_unknown_objects_skipped [AllocFile.text ⟨"A", 100⟩] [] "X").2⟩
